import Mathlib

/-!
Verification of the tamper-synthesis pipeline of the invoice-fraud-detector
repository (`src/tamper_generator.py`) and of the decision threshold of its
inference pipeline (`src/infer.py`, `app.py`).

The embedding is shallow: a decoded RGB raster image is a record of its
dimensions and a pixel function; Python's `random.randint(a, b)` becomes a
function of an explicit draw that fails exactly when the range is empty
(Python raises `ValueError` there); PIL drawing calls become pure pixel
transformers; the driver's filesystem writes are collected into an explicit
list of (path, image) pairs, with an association-list model of the output
directory for overwrite semantics.
-/

/-- An RGB pixel value, one natural number per channel. -/
abbrev RGB := Nat × Nat × Nat

/-- A decoded RGB raster image: width, height and a pixel function.
Models a PIL `Image` in mode RGB. -/
structure Img where
  w : Nat
  h : Nat
  pix : Nat → Nat → RGB

instance : Inhabited Img := ⟨⟨0, 0, fun _ _ => (0, 0, 0)⟩⟩

/-- The Python exceptions the pipeline can raise: `ValueError` from
`random.randint`/`random.sample` on an empty range, and `FileNotFoundError`
from `os.listdir` on a missing or unreadable source directory (the spec's
`MissingSourceDirectory` condition). -/
inductive TamperErr
  | valueError
  | fileNotFound
deriving DecidableEq, Repr

/-- Python's `random.randint(a, b)`: returns an integer in `[a, b]` chosen
from the process-wide generator, modelled by the explicit draw `r`; raises
`ValueError` when `a > b` (empty range). -/
def randint (a b : Int) (r : Nat) : Except TamperErr Int :=
  if a ≤ b then .ok (a + ((r % (b - a + 1).toNat : Nat) : Int)) else .error .valueError

/-- Python's `random.choice` on a concrete nonempty sequence, modelled with a
default for the (unreachable) empty case. -/
def choiceD {α : Type} (l : List α) (d : α) (r : Nat) : α :=
  l.getD (r % l.length) d

/-- PIL `ImageDraw.rectangle([x1, y1, x2, y2], fill=c)`: fills the rectangle
with both corners inclusive, clipped to the image bounds (pixels outside the
raster simply do not exist). Dimensions are unchanged. -/
def drawRect (img : Img) (x1 y1 x2 y2 : Int) (c : RGB) : Img :=
  { img with pix := fun i j =>
      if x1 ≤ (i : Int) ∧ (i : Int) ≤ x2 ∧ y1 ≤ (j : Int) ∧ (j : Int) ≤ y2 then c
      else img.pix i j }

/-- PIL `ImageDraw.ellipse([x1, y1, x2, y2], fill=c)`: fills the ellipse
inscribed in the bounding box (modelled by the doubled-coordinate ellipse
inequality). Dimensions are unchanged. -/
def drawEllipse (img : Img) (x1 y1 x2 y2 : Int) (c : RGB) : Img :=
  { img with pix := fun i j =>
      if (2 * (i : Int) - (x1 + x2)) ^ 2 * (y2 - y1) ^ 2
           + (2 * (j : Int) - (y1 + y2)) ^ 2 * (x2 - x1) ^ 2
           ≤ (x2 - x1) ^ 2 * (y2 - y1) ^ 2 then c
      else img.pix i j }

/-- A rendering font: either a truetype font of a given point size or PIL's
built-in default bitmap font (`ImageFont.load_default()`). -/
inductive Font
  | truetype (name : String) (size : Nat)
  | default
deriving DecidableEq

/-- Pixel height of the rendered glyph box for a font (the default bitmap
font is smaller than the 22pt truetype); part of the glyph-raster model. -/
def fontHeight : Font → Nat
  | .truetype _ size => size
  | .default => 11

/-- Pixel advance width per character for a font; part of the glyph-raster
model. -/
def charWidth : Font → Nat
  | .truetype _ size => size / 2
  | .default => 6

/-- PIL `ImageDraw.text((x, y), text, fill=c, font=f)`. The glyph raster is
modelled as the solid text box anchored at `(x, y)`, sized by the font's
metrics; pixels outside the raster are clipped. Dimensions are unchanged. -/
def drawText (img : Img) (x y : Int) (text : String) (c : RGB) (f : Font) : Img :=
  { img with pix := fun i j =>
      if x ≤ (i : Int) ∧ (i : Int) < x + (text.length * charWidth f : Nat)
          ∧ y ≤ (j : Int) ∧ (j : Int) < y + (fontHeight f : Nat) then c
      else img.pix i j }

/-- PIL `Image.crop((x1, y1, x2, y2))`: a new `(x2-x1) × (y2-y1)` image whose
pixels are read from the source, black outside the source bounds. -/
def crop (img : Img) (x1 y1 x2 y2 : Int) : Img :=
  { w := (x2 - x1).toNat, h := (y2 - y1).toNat,
    pix := fun i j =>
      let sx := x1 + (i : Int)
      let sy := y1 + (j : Int)
      if 0 ≤ sx ∧ sx < (img.w : Int) ∧ 0 ≤ sy ∧ sy < (img.h : Int) then
        img.pix sx.toNat sy.toNat
      else (0, 0, 0) }

/-- Clamp an integer coordinate into `[0, n-1]` (edge extension). -/
def clampCoord (v : Int) (n : Nat) : Nat :=
  (min (max v 0) ((n : Int) - 1)).toNat

/-- PIL `ImageFilter.GaussianBlur(radius)`: modelled as the normalized
average of the `(2·radius+1)²` window around each pixel with edge extension —
a normalized convolution, like the true Gaussian kernel it stands for. It
preserves dimensions and fixes constant rasters. -/
def gaussianBlur (radius : Nat) (img : Img) : Img :=
  { img with pix := fun x y =>
      let k := 2 * radius + 1
      let offs := (List.range k).map (fun d => (d : Int) - (radius : Int))
      let samples := (offs.map (fun dy => offs.map (fun dx =>
        img.pix (clampCoord ((x : Int) + dx) img.w) (clampCoord ((y : Int) + dy) img.h)))).flatten
      ((samples.map (fun p => p.1)).foldl (fun a b => a + b) 0 / (k * k),
       (samples.map (fun p => p.2.1)).foldl (fun a b => a + b) 0 / (k * k),
       (samples.map (fun p => p.2.2)).foldl (fun a b => a + b) 0 / (k * k)) }

/-- PIL `Image.paste(patch, (x, y))`: overwrites the region of `img` covered
by `patch` anchored at `(x, y)`, clipped to the raster. Dimensions of `img`
are unchanged. -/
def paste (img patch : Img) (x y : Int) : Img :=
  { img with pix := fun i j =>
      if x ≤ (i : Int) ∧ (i : Int) < x + (patch.w : Nat) ∧ y ≤ (j : Int) ∧ (j : Int) < y + (patch.h : Nat) then
        patch.pix ((i : Int) - x).toNat ((j : Int) - y).toNat
      else img.pix i j }

/-- A segment of a PIL polyline: `(x, y)` lies on the rasterized segment from
`p` to `q` (segments here always advance rightward in `x`). -/
def onSegment (p q : Int × Int) (x y : Int) : Bool :=
  decide (p.1 < q.1) && decide (p.1 ≤ x) && decide (x ≤ q.1)
    && (y == p.2 + (q.2 - p.2) * (x - p.1) / (q.1 - p.1))

/-- PIL `ImageDraw.line(points, fill=c, width=k)` on a polyline: paints the
rasterized segments between consecutive points, thickened downward to the
requested stroke width. Dimensions are unchanged. -/
def drawPolyline (pts : List (Int × Int)) (c : RGB) (strokeW : Nat) (img : Img) : Img :=
  { img with pix := fun x y =>
      if (pts.zip pts.tail).any (fun pq =>
          (List.range strokeW).any (fun k => onSegment pq.1 pq.2 (x : Int) ((y : Int) - (k : Nat)))) then c
      else img.pix x y }

/-- `apply_black_box` (tamper_generator.py lines 13–21): draws one filled
black rectangle with top-left in `[50, w//2] × [50, h//2]` and size offsets
in `[50,150] × [20,50]`. Draws `ds 0 .. ds 3` feed the four `randint` calls
in source order. -/
def apply_black_box (img : Img) (ds : Nat → Nat) : Except TamperErr Img := do
  let w := img.w
  let h := img.h
  let x1 ← randint 50 ((w / 2 : Nat) : Int) (ds 0)
  let y1 ← randint 50 ((h / 2 : Nat) : Int) (ds 1)
  let x2 := x1 + (← randint 50 150 (ds 2))
  let y2 := y1 + (← randint 20 50 (ds 3))
  return drawRect img x1 y1 x2 y2 (0, 0, 0)

/-- `apply_fake_text` (lines 23–33): tries the 22pt `arial.ttf` truetype
font, falling back to PIL's default font when unavailable (the bare
`except:` in the source catches the lookup failure), then draws the literal
text `FAKE $999` in red at a random position. `fontAvailable` models whether
the host has the preferred font. -/
def apply_fake_text (fontAvailable : Bool) (img : Img) (ds : Nat → Nat) : Except TamperErr Img := do
  let w := img.w
  let h := img.h
  let font := if fontAvailable then Font.truetype ("arial.ttf") 22 else Font.default
  let x ← randint 100 ((w : Int) - 150) (ds 0)
  let y ← randint 100 ((h : Int) - 50) (ds 1)
  return drawText img x y ("FAKE $999") (255, 0, 0) font

/-- `apply_blur_patch` (lines 35–41): crops a `150 × 50` patch at a random
offset, Gaussian-blurs it with radius 5, and pastes it back at the same
offset. -/
def apply_blur_patch (img : Img) (ds : Nat → Nat) : Except TamperErr Img := do
  let w := img.w
  let h := img.h
  let x ← randint 50 ((w : Int) - 200) (ds 0)
  let y ← randint 50 ((h : Int) - 100) (ds 1)
  let patch := gaussianBlur 5 (crop img x y (x + 150) (y + 50))
  return paste img patch x y

/-- `apply_whiteout` (lines 44–52): draws one filled white rectangle with
top-left in `[100, w-200] × [100, h-100]` and size offsets in
`[80,150] × [20,40]`. -/
def apply_whiteout (img : Img) (ds : Nat → Nat) : Except TamperErr Img := do
  let w := img.w
  let h := img.h
  let x1 ← randint 100 ((w : Int) - 200) (ds 0)
  let y1 ← randint 100 ((h : Int) - 100) (ds 1)
  let x2 := x1 + (← randint 80 150 (ds 2))
  let y2 := y1 + (← randint 20 40 (ds 3))
  return drawRect img x1 y1 x2 y2 (255, 255, 255)

/-- `overlay_random_shape` (lines 54–66): draws one filled ellipse or
rectangle (uniform choice) in blue, purple or grey (uniform choice) inside a
random `size × size` bounding box, `size ∈ [30, 60]`. -/
def overlay_random_shape (img : Img) (ds : Nat → Nat) : Except TamperErr Img := do
  let w := img.w
  let h := img.h
  let x ← randint 50 ((w : Int) - 100) (ds 0)
  let y ← randint 50 ((h : Int) - 100) (ds 1)
  let size ← randint 30 60 (ds 2)
  let shape := choiceD [("ellipse"), ("rectangle")] ("ellipse") (ds 3)
  let color := choiceD [((0, 0, 255) : RGB), (128, 0, 128), (128, 128, 128)] ((0, 0, 255) : RGB) (ds 4)
  if shape = "ellipse" then
    return drawEllipse img x y (x + size) (y + size) color
  else
    return drawRect img x y (x + size) (y + size) color

/-- One 5-point signature curve of `apply_fake_signature`: points
`(x + i*15, y + jitter_i)` with per-point vertical jitter drawn from
`randint(-10, 10)`; curve `c`'s jitters consume draws `ds (2 + 5*c + i)`. -/
def signatureCurve (x y : Int) (ds : Nat → Nat) (c : Nat) : Except TamperErr (List (Int × Int)) :=
  (List.range 5).mapM (fun i => do
    let j ← randint (-10) 10 (ds (2 + 5 * c + i))
    pure (x + (i : Nat) * 15, y + j))

/-- `apply_fake_signature` (lines 68–76): draws three independent 5-point
black polylines of stroke width 2, starting at a random position
`[100, w-200] × [h-150, h-80]`, with per-point vertical jitter. -/
def apply_fake_signature (img : Img) (ds : Nat → Nat) : Except TamperErr Img := do
  let w := img.w
  let h := img.h
  let x ← randint 100 ((w : Int) - 200) (ds 0)
  let y ← randint ((h : Int) - 150) ((h : Int) - 80) (ds 1)
  let c0 ← signatureCurve x y ds 0
  let img0 := drawPolyline c0 (0, 0, 0) 2 img
  let c1 ← signatureCurve x y ds 1
  let img1 := drawPolyline c1 (0, 0, 0) 2 img0
  let c2 ← signatureCurve x y ds 2
  return drawPolyline c2 (0, 0, 0) 2 img1

/-- The six perturbation operators, named as in the `tamper_methods` list of
`tamper_image` (lines 81–88). -/
inductive TamperMethod
  | blackBox
  | fakeText
  | blurPatch
  | whiteout
  | randomShape
  | fakeSignature
deriving DecidableEq, Repr

/-- The `tamper_methods` list of `tamper_image` (lines 81–88), in source
order. -/
def tamper_methods : List TamperMethod :=
  [.blackBox, .fakeText, .blurPatch, .whiteout, .randomShape, .fakeSignature]

/-- Dispatch of a method name to its operator (the call `method(img)` at
line 90). `fontAvailable` is threaded to the fake-text operator only. -/
def applyMethod (m : TamperMethod) (fontAvailable : Bool) (img : Img) (ds : Nat → Nat) :
    Except TamperErr Img :=
  match m with
  | .blackBox => apply_black_box img ds
  | .fakeText => apply_fake_text fontAvailable img ds
  | .blurPatch => apply_blur_patch img ds
  | .whiteout => apply_whiteout img ds
  | .randomShape => overlay_random_shape img ds
  | .fakeSignature => apply_fake_signature img ds

/-- The randomness one `tamper_image` call consumes: the draw behind
`random.choice(tamper_methods)` and the stream of draws behind the chosen
operator's `randint` calls. -/
structure ImgRand where
  methodDraw : Nat
  draws : Nat → Nat

/-- `tamper_image` (lines 79–91) on an already-decoded image: selects one of
the six methods by uniform random choice (`random.choice`, modelled as the
uniform index `methodDraw % 6`) and applies it. The source's
`Image.open(...).convert("RGB")` and `.save(save_path)` are modelled by the
driver passing decoded images in and collecting outputs. -/
def tamper_image (fontAvailable : Bool) (img : Img) (r : ImgRand) : Except TamperErr Img :=
  applyMethod (tamper_methods.getD (r.methodDraw % tamper_methods.length) .blackBox)
    fontAvailable img r.draws

/-- Decimal rendering of a natural number, as Python's `str(i)` inside the
f-string `f"tampered_{i}.jpg"`. -/
def natStr (n : Nat) : String :=
  if n = 0 then ("0") else String.mk ((Nat.digits 10 n).reverse.map Nat.digitChar)

/-- The output file name `f"tampered_{i}.jpg"` of line 98. -/
def tamperName (i : Nat) : String :=
  ("tampered_") ++ natStr i ++ (".jpg")

/-- Selection core of Python's `random.sample(l, k)` (sampling without
replacement): repeatedly pick a uniformly random remaining position, remove
it and keep its element. Only called with `k ≤ l.length`. -/
def sampleGo {α : Type} [Inhabited α] : List α → Nat → (Nat → Nat) → List α
  | _, 0, _ => []
  | l, k + 1, ds =>
      let i := ds 0 % l.length
      l.getD i default :: sampleGo (l.eraseIdx i) k (fun m => ds (m + 1))

/-- Python's `random.sample(l, k)`: `k` distinct-position elements of `l`,
raising `ValueError` when `k > len(l)`. -/
def sample {α : Type} [Inhabited α] (l : List α) (k : Nat) (ds : Nat → Nat) :
    Except TamperErr (List α) :=
  if k ≤ l.length then .ok (sampleGo l k ds) else .error .valueError

/-- The randomness one driver invocation consumes: the draws behind
`random.sample` and, for each 0-based batch position, the per-image
randomness of its `tamper_image` call. -/
structure GenRand where
  sampleDraws : Nat → Nat
  imgRand : Nat → ImgRand

/-- The `for i, filename in enumerate(selected)` loop of lines 96–99: for
each selected source image, tamper it and write the result as
`tampered_<i>.jpg`; an operator exception aborts the loop, keeping the files
already written. Returns the writes in order and the loop's outcome. -/
def genLoop (fontAvailable : Bool) (rands : Nat → ImgRand) :
    List (String × Img) → Nat → List (String × Img) × Except TamperErr Unit
  | [], _ => ([], .ok ())
  | e :: rest, i =>
    match tamper_image fontAvailable e.2 (rands i) with
    | .error err => ([], .error err)
    | .ok timg =>
      let out := genLoop fontAvailable rands rest (i + 1)
      ((tamperName i, timg) :: out.1, out.2)

/-- `generate_tampered_images(n)` (lines 93–100). The source directory is
`none` when missing or unreadable (`os.listdir` raises, the spec's
`MissingSourceDirectory`), else the list of its entries as
(filename, decoded image) pairs. Returns the list of files written, in
order, and either the summary count `len(selected)` that line 100 reports or
the uncaught exception that aborted the batch. -/
def generate_tampered_images (realDir : Option (List (String × Img))) (n : Nat)
    (fontAvailable : Bool) (r : GenRand) : List (String × Img) × Except TamperErr Nat :=
  match realDir with
  | none => ([], .error .fileNotFound)
  | some real_imgs =>
    match sample real_imgs (min n real_imgs.length) r.sampleDraws with
    | .error e => ([], .error e)
    | .ok selected =>
      match genLoop fontAvailable r.imgRand selected 0 with
      | (files, .ok _) => (files, .ok selected.length)
      | (files, .error e) => (files, .error e)

/-- Writing one file: `Image.save(path)` overwrites an existing file of that
name and otherwise creates a new directory entry. -/
def writeFile (dir : List (String × Img)) (name : String) (content : Img) :
    List (String × Img) :=
  if dir.any (fun e => e.1 == name) then
    dir.map (fun e => if e.1 = name then (name, content) else e)
  else dir ++ [(name, content)]

/-- Applying a driver invocation's writes, in order, to an output
directory. -/
def writeAll (dir : List (String × Img)) (files : List (String × Img)) :
    List (String × Img) :=
  files.foldl (fun d f => writeFile d f.1 f.2) dir

/-- Reading a directory entry by name. -/
def lookupDir (dir : List (String × Img)) (name : String) : Option Img :=
  (dir.find? (fun e => e.1 == name)).map (fun e => e.2)

/-- Two images differ in at least one pixel of the common raster. -/
def imgDiffers (a b : Img) : Prop :=
  ∃ x y, x < a.w ∧ y < a.h ∧ a.pix x y ≠ b.pix x y

/-- `predict` (infer.py lines 29–35) given the sigmoid probability
`prob = torch.sigmoid(output).item()` of the single-logit model output:
returns the pair `(pred, prob)` with `pred = 1 if prob > 0.5 else 0`.
Probabilities are modelled in exact arithmetic; the float literal `0.5` is
exact in IEEE 754, so the comparison is faithful. -/
def predict (prob : Rat) : Nat × Rat :=
  (if 0.5 < prob then 1 else 0, prob)

/-- The prediction of the interactive UI (app.py lines 42–43):
`pred = 1 if prob > 0.5 else 0` on the sigmoid probability. -/
def app_pred (prob : Rat) : Nat :=
  if 0.5 < prob then 1 else 0

/-- Test fixture: a decodable but very small (10 × 10) all-white source
image; too small for every operator's parameter ranges. -/
def tinyImg : Img := ⟨10, 10, fun _ _ => (255, 255, 255)⟩

/-- Test fixture: a 300 × 200 all-white source image, large enough for every
operator's parameter ranges (the spec's scenario uses a white raster). -/
def whiteImg : Img := ⟨300, 200, fun _ _ => (255, 255, 255)⟩

/-- Test fixture: the all-zero draw stream for one image. -/
def zeroImgRand : ImgRand := ⟨0, fun _ => 0⟩

/-- Test fixture: the all-zero draw stream for a driver invocation. -/
def zeroGenRand : GenRand := ⟨fun _ => 0, fun _ => zeroImgRand⟩

/-- Test fixture: an `ImgRand` whose method draw selects the whiteout
operator (index 3 of the six-method list). -/
def whiteoutRand : ImgRand := ⟨3, fun _ => 0⟩

/-! ### Properties of the random primitives -/

theorem ok_bind {ε α β : Type} (a : α) (f : α → Except ε β) :
    (Except.ok a : Except ε α) >>= f = f a := rfl

theorem randint_err {a b : Int} (h : b < a) (r : Nat) :
    randint a b r = .error .valueError := by
  rw [randint, if_neg (not_le.mpr h)]

theorem randint_ok {a b : Int} (h : a ≤ b) (r : Nat) :
    ∃ v, randint a b r = .ok v ∧ a ≤ v ∧ v ≤ b := by
  have hpos : 0 < (b - a + 1).toNat := by omega
  have hlt : r % (b - a + 1).toNat < (b - a + 1).toNat := Nat.mod_lt r hpos
  refine ⟨a + ((r % (b - a + 1).toNat : Nat) : Int), ?_, by omega, by omega⟩
  rw [randint, if_pos h]

/-! ### Success and failure of the six operators -/

theorem apply_black_box_eq {img : Img} (ds : Nat → Nat)
    (h1 : (50 : Int) ≤ ((img.w / 2 : Nat) : Int)) (h2 : (50 : Int) ≤ ((img.h / 2 : Nat) : Int)) :
    ∃ x1 y1 dx dy,
      apply_black_box img ds = .ok (drawRect img x1 y1 (x1 + dx) (y1 + dy) (0, 0, 0)) ∧
      50 ≤ x1 ∧ x1 ≤ ((img.w / 2 : Nat) : Int) ∧ 50 ≤ y1 ∧ y1 ≤ ((img.h / 2 : Nat) : Int) ∧
      50 ≤ dx ∧ dx ≤ 150 ∧ 20 ≤ dy ∧ dy ≤ 50 := by
  obtain ⟨x1, hx1, hx1a, hx1b⟩ := randint_ok h1 (ds 0)
  obtain ⟨y1, hy1, hy1a, hy1b⟩ := randint_ok h2 (ds 1)
  obtain ⟨dx, hdx, hdxa, hdxb⟩ := randint_ok (show (50:Int) ≤ 150 by norm_num) (ds 2)
  obtain ⟨dy, hdy, hdya, hdyb⟩ := randint_ok (show (20:Int) ≤ 50 by norm_num) (ds 3)
  refine ⟨x1, y1, dx, dy, ?_, hx1a, hx1b, hy1a, hy1b, hdxa, hdxb, hdya, hdyb⟩
  simp only [apply_black_box, hx1, hy1, hdx, hdy]
  rfl

theorem apply_black_box_err {img : Img} (h : img.w < 100) (ds : Nat → Nat) :
    apply_black_box img ds = .error .valueError := by
  have : ((img.w / 2 : Nat) : Int) < 50 := by omega
  simp only [apply_black_box, randint_err this]
  rfl

theorem apply_fake_text_eq {img : Img} (fa : Bool) (ds : Nat → Nat)
    (h1 : (100 : Int) ≤ (img.w : Int) - 150) (h2 : (100 : Int) ≤ (img.h : Int) - 50) :
    ∃ x y, apply_fake_text fa img ds =
      .ok (drawText img x y ("FAKE $999") (255, 0, 0)
        (if fa then Font.truetype ("arial.ttf") 22 else Font.default)) ∧
      100 ≤ x ∧ x ≤ (img.w : Int) - 150 ∧ 100 ≤ y ∧ y ≤ (img.h : Int) - 50 := by
  obtain ⟨x, hx, hxa, hxb⟩ := randint_ok h1 (ds 0)
  obtain ⟨y, hy, hya, hyb⟩ := randint_ok h2 (ds 1)
  refine ⟨x, y, ?_, hxa, hxb, hya, hyb⟩
  simp only [apply_fake_text, hx, hy]
  rfl

theorem apply_fake_text_err {img : Img} (fa : Bool) (h : img.w < 250 ∨ img.h < 150)
    (ds : Nat → Nat) : apply_fake_text fa img ds = .error .valueError := by
  rcases h with h | h
  · have : (img.w : Int) - 150 < 100 := by omega
    simp only [apply_fake_text, randint_err this]
    rfl
  · have hh : (img.h : Int) - 50 < 100 := by omega
    rcases le_or_lt 100 ((img.w : Int) - 150) with hw | hw
    · obtain ⟨x, hx, _, _⟩ := randint_ok hw (ds 0)
      simp only [apply_fake_text, hx, randint_err hh]
      rfl
    · simp only [apply_fake_text, randint_err hw]
      rfl

theorem apply_blur_patch_eq {img : Img} (ds : Nat → Nat)
    (h1 : (50 : Int) ≤ (img.w : Int) - 200) (h2 : (50 : Int) ≤ (img.h : Int) - 100) :
    ∃ x y, apply_blur_patch img ds =
      .ok (paste img (gaussianBlur 5 (crop img x y (x + 150) (y + 50))) x y) ∧
      50 ≤ x ∧ x ≤ (img.w : Int) - 200 ∧ 50 ≤ y ∧ y ≤ (img.h : Int) - 100 := by
  obtain ⟨x, hx, hxa, hxb⟩ := randint_ok h1 (ds 0)
  obtain ⟨y, hy, hya, hyb⟩ := randint_ok h2 (ds 1)
  refine ⟨x, y, ?_, hxa, hxb, hya, hyb⟩
  simp only [apply_blur_patch, hx, hy]
  rfl

theorem apply_blur_patch_err {img : Img} (h : img.w < 250 ∨ img.h < 150) (ds : Nat → Nat) :
    apply_blur_patch img ds = .error .valueError := by
  rcases h with h | h
  · have : (img.w : Int) - 200 < 50 := by omega
    simp only [apply_blur_patch, randint_err this]
    rfl
  · have hh : (img.h : Int) - 100 < 50 := by omega
    rcases le_or_lt 50 ((img.w : Int) - 200) with hw | hw
    · obtain ⟨x, hx, _, _⟩ := randint_ok hw (ds 0)
      simp only [apply_blur_patch, hx, randint_err hh]
      rfl
    · simp only [apply_blur_patch, randint_err hw]
      rfl

theorem apply_whiteout_eq {img : Img} (ds : Nat → Nat)
    (h1 : (100 : Int) ≤ (img.w : Int) - 200) (h2 : (100 : Int) ≤ (img.h : Int) - 100) :
    ∃ x1 y1 dx dy,
      apply_whiteout img ds = .ok (drawRect img x1 y1 (x1 + dx) (y1 + dy) (255, 255, 255)) ∧
      100 ≤ x1 ∧ x1 ≤ (img.w : Int) - 200 ∧ 100 ≤ y1 ∧ y1 ≤ (img.h : Int) - 100 ∧
      80 ≤ dx ∧ dx ≤ 150 ∧ 20 ≤ dy ∧ dy ≤ 40 := by
  obtain ⟨x1, hx1, hx1a, hx1b⟩ := randint_ok h1 (ds 0)
  obtain ⟨y1, hy1, hy1a, hy1b⟩ := randint_ok h2 (ds 1)
  obtain ⟨dx, hdx, hdxa, hdxb⟩ := randint_ok (show (80:Int) ≤ 150 by norm_num) (ds 2)
  obtain ⟨dy, hdy, hdya, hdyb⟩ := randint_ok (show (20:Int) ≤ 40 by norm_num) (ds 3)
  refine ⟨x1, y1, dx, dy, ?_, hx1a, hx1b, hy1a, hy1b, hdxa, hdxb, hdya, hdyb⟩
  simp only [apply_whiteout, hx1, hy1, hdx, hdy]
  rfl

theorem apply_whiteout_err {img : Img} (h : img.w < 100) (ds : Nat → Nat) :
    apply_whiteout img ds = .error .valueError := by
  have : (img.w : Int) - 200 < 100 := by omega
  simp only [apply_whiteout, randint_err this]
  rfl

theorem overlay_random_shape_ok {img : Img} (ds : Nat → Nat)
    (h1 : (50 : Int) ≤ (img.w : Int) - 100) (h2 : (50 : Int) ≤ (img.h : Int) - 100) :
    ∃ out, overlay_random_shape img ds = .ok out ∧ out.w = img.w ∧ out.h = img.h := by
  obtain ⟨x, hx, _, _⟩ := randint_ok h1 (ds 0)
  obtain ⟨y, hy, _, _⟩ := randint_ok h2 (ds 1)
  obtain ⟨size, hsize, _, _⟩ := randint_ok (show (30:Int) ≤ 60 by norm_num) (ds 2)
  by_cases hs : choiceD [("ellipse"), ("rectangle")] ("ellipse") (ds 3) = "ellipse"
  · refine ⟨drawEllipse img x y (x + size) (y + size)
        (choiceD [((0, 0, 255) : RGB), (128, 0, 128), (128, 128, 128)] ((0, 0, 255) : RGB) (ds 4)),
      ?_, rfl, rfl⟩
    simp only [overlay_random_shape, hx, hy, hsize, ok_bind, if_pos hs]
    rfl
  · refine ⟨drawRect img x y (x + size) (y + size)
        (choiceD [((0, 0, 255) : RGB), (128, 0, 128), (128, 128, 128)] ((0, 0, 255) : RGB) (ds 4)),
      ?_, rfl, rfl⟩
    simp only [overlay_random_shape, hx, hy, hsize, ok_bind, if_neg hs]
    rfl

theorem overlay_random_shape_err {img : Img} (h : img.w < 100) (ds : Nat → Nat) :
    overlay_random_shape img ds = .error .valueError := by
  have : (img.w : Int) - 100 < 50 := by omega
  simp only [overlay_random_shape, randint_err this]
  rfl

theorem mapM_jitter_ok (x y : Int) (g : Nat → Nat) (l : List Nat) :
    ∃ pts, (l.mapM (fun i => do
      let j ← randint (-10) 10 (g i)
      pure (x + (i : Nat) * 15, y + j)) : Except TamperErr (List (Int × Int))) = .ok pts := by
  induction l with
  | nil => exact ⟨[], rfl⟩
  | cons a t ih =>
    obtain ⟨j, hj, _, _⟩ := randint_ok (show (-10:Int) ≤ 10 by norm_num) (g a)
    obtain ⟨pts, hpts⟩ := ih
    refine ⟨(x + (a : Nat) * 15, y + j) :: pts, ?_⟩
    rw [List.mapM_cons]
    simp only [hj, hpts, ok_bind]
    rfl

theorem signatureCurve_ok (x y : Int) (ds : Nat → Nat) (c : Nat) :
    ∃ pts, signatureCurve x y ds c = .ok pts :=
  mapM_jitter_ok x y (fun i => ds (2 + 5 * c + i)) (List.range 5)

theorem apply_fake_signature_ok {img : Img} (ds : Nat → Nat)
    (h1 : (100 : Int) ≤ (img.w : Int) - 200) :
    ∃ out, apply_fake_signature img ds = .ok out ∧ out.w = img.w ∧ out.h = img.h := by
  have h2 : ((img.h : Int) - 150) ≤ (img.h : Int) - 80 := by omega
  obtain ⟨x, hx, _, _⟩ := randint_ok h1 (ds 0)
  obtain ⟨y, hy, _, _⟩ := randint_ok h2 (ds 1)
  obtain ⟨c0, hc0⟩ := signatureCurve_ok x y ds 0
  obtain ⟨c1, hc1⟩ := signatureCurve_ok x y ds 1
  obtain ⟨c2, hc2⟩ := signatureCurve_ok x y ds 2
  refine ⟨drawPolyline c2 (0, 0, 0) 2 (drawPolyline c1 (0, 0, 0) 2 (drawPolyline c0 (0, 0, 0) 2 img)),
    ?_, rfl, rfl⟩
  simp only [apply_fake_signature, hx, hy, hc0, hc1, hc2, ok_bind]
  rfl

theorem apply_fake_signature_err {img : Img} (h : img.w < 100) (ds : Nat → Nat) :
    apply_fake_signature img ds = .error .valueError := by
  have : (img.w : Int) - 200 < 100 := by omega
  simp only [apply_fake_signature, randint_err this]
  rfl

/-! ### The selector: success on large images, `ValueError` on small ones -/

theorem tamper_image_ok {img : Img} (h1 : 300 ≤ img.w) (h2 : 200 ≤ img.h) (fa : Bool)
    (r : ImgRand) : ∃ out, tamper_image fa img r = .ok out ∧ out.w = img.w ∧ out.h = img.h := by
  have hm : r.methodDraw % tamper_methods.length = r.methodDraw % 6 := rfl
  rw [tamper_image, hm]
  rcases (show r.methodDraw % 6 = 0 ∨ r.methodDraw % 6 = 1 ∨ r.methodDraw % 6 = 2 ∨
      r.methodDraw % 6 = 3 ∨ r.methodDraw % 6 = 4 ∨ r.methodDraw % 6 = 5 by omega) with
    h | h | h | h | h | h <;> rw [h]
  · obtain ⟨x1, y1, dx, dy, heq, _⟩ :=
      apply_black_box_eq r.draws (show (50:Int) ≤ ((img.w / 2 : Nat) : Int) by omega)
        (show (50:Int) ≤ ((img.h / 2 : Nat) : Int) by omega)
    exact ⟨_, heq, rfl, rfl⟩
  · obtain ⟨x, y, heq, _⟩ := apply_fake_text_eq fa r.draws
      (show (100:Int) ≤ (img.w : Int) - 150 by omega) (show (100:Int) ≤ (img.h : Int) - 50 by omega)
    exact ⟨_, heq, rfl, rfl⟩
  · obtain ⟨x, y, heq, _⟩ := apply_blur_patch_eq r.draws
      (show (50:Int) ≤ (img.w : Int) - 200 by omega) (show (50:Int) ≤ (img.h : Int) - 100 by omega)
    exact ⟨_, heq, rfl, rfl⟩
  · obtain ⟨x1, y1, dx, dy, heq, _⟩ := apply_whiteout_eq r.draws
      (show (100:Int) ≤ (img.w : Int) - 200 by omega) (show (100:Int) ≤ (img.h : Int) - 100 by omega)
    exact ⟨_, heq, rfl, rfl⟩
  · exact overlay_random_shape_ok r.draws
      (show (50:Int) ≤ (img.w : Int) - 100 by omega) (show (50:Int) ≤ (img.h : Int) - 100 by omega)
  · exact apply_fake_signature_ok r.draws (show (100:Int) ≤ (img.w : Int) - 200 by omega)

theorem tamper_image_small {img : Img} (h : img.w < 100) (fa : Bool) (r : ImgRand) :
    tamper_image fa img r = .error .valueError := by
  have hm : r.methodDraw % tamper_methods.length = r.methodDraw % 6 := rfl
  rw [tamper_image, hm]
  rcases (show r.methodDraw % 6 = 0 ∨ r.methodDraw % 6 = 1 ∨ r.methodDraw % 6 = 2 ∨
      r.methodDraw % 6 = 3 ∨ r.methodDraw % 6 = 4 ∨ r.methodDraw % 6 = 5 by omega) with
    hc | hc | hc | hc | hc | hc <;> rw [hc]
  · exact apply_black_box_err h r.draws
  · exact apply_fake_text_err fa (Or.inl (by omega)) r.draws
  · exact apply_blur_patch_err (Or.inl (by omega)) r.draws
  · exact apply_whiteout_err h r.draws
  · exact overlay_random_shape_err h r.draws
  · exact apply_fake_signature_err h r.draws

/-! ### Properties of `random.sample` -/

theorem sampleGo_length {α : Type} [Inhabited α] (k : Nat) :
    ∀ (l : List α) (ds : Nat → Nat), (sampleGo l k ds).length = k := by
  induction k with
  | zero => intro l ds; rfl
  | succ k ih => intro l ds; simp [sampleGo, ih]

theorem getD_cons_eraseIdx_perm {α : Type} [Inhabited α] :
    ∀ (l : List α) (i : Nat), i < l.length →
      List.Perm l (l.getD i default :: l.eraseIdx i) := by
  intro l
  induction l with
  | nil => intro i h; simp at h
  | cons a t ih =>
    intro i h
    cases i with
    | zero => rfl
    | succ i =>
      have ht : i < t.length := by simpa using h
      show List.Perm (a :: t) (t.getD i default :: a :: t.eraseIdx i)
      exact (List.Perm.cons a (ih i ht)).trans (List.Perm.swap _ _ _)

theorem sampleGo_subperm {α : Type} [Inhabited α] (k : Nat) :
    ∀ (l : List α) (ds : Nat → Nat), k ≤ l.length → List.Subperm (sampleGo l k ds) l := by
  induction k with
  | zero => intro l ds _; exact List.nil_subperm
  | succ k ih =>
    intro l ds h
    have hl : 0 < l.length := by omega
    have hi : ds 0 % l.length < l.length := Nat.mod_lt _ hl
    have h2 : k ≤ (l.eraseIdx (ds 0 % l.length)).length := by
      rw [List.length_eraseIdx]
      simp only [hi, if_pos]
      omega
    show List.Subperm (l.getD (ds 0 % l.length) default ::
      sampleGo (l.eraseIdx (ds 0 % l.length)) k (fun m => ds (m + 1))) l
    exact ((List.subperm_cons _).mpr (ih _ _ h2)).trans
      (getD_cons_eraseIdx_perm l _ hi).symm.subperm

theorem sampleGo_perm {α : Type} [Inhabited α] (l : List α) (ds : Nat → Nat) :
    List.Perm (sampleGo l l.length ds) l :=
  (sampleGo_subperm l.length l ds le_rfl).perm_of_length_le
    (le_of_eq (sampleGo_length l.length l ds).symm)

theorem subperm_map {α β : Type} (f : α → β) {l1 l2 : List α} (h : List.Subperm l1 l2) :
    List.Subperm (l1.map f) (l2.map f) := by
  obtain ⟨t, hp, hs⟩ := h
  exact ⟨t.map f, hp.map f, hs.map f⟩

theorem subperm_nodup {α : Type} {l1 l2 : List α} (h : List.Subperm l1 l2) (hn : l2.Nodup) :
    l1.Nodup := by
  obtain ⟨t, hp, hs⟩ := h
  exact hp.nodup_iff.mp (List.Nodup.sublist hs hn)

/-! ### The generation loop -/

theorem genLoop_ok {fa : Bool} {rands : Nat → ImgRand} :
    ∀ (sel : List (String × Img)) (i0 : Nat),
    (∀ e ∈ sel, ∀ rr : ImgRand, ∃ out, tamper_image fa e.2 rr = .ok out) →
    (genLoop fa rands sel i0).2 = .ok () := by
  intro sel
  induction sel with
  | nil => intro i0 _; rfl
  | cons e rest ih =>
    intro i0 hall
    obtain ⟨out, hout⟩ := hall e (List.mem_cons_self e rest) (rands i0)
    simp only [genLoop, hout]
    exact ih (i0 + 1) (fun x hx rr => hall x (List.mem_cons_of_mem e hx) rr)

theorem genLoop_ok_elim {fa : Bool} {rands : Nat → ImgRand} :
    ∀ (sel : List (String × Img)) (i0 : Nat),
    (genLoop fa rands sel i0).2 = .ok () →
    (genLoop fa rands sel i0).1.length = sel.length ∧
    ∀ j, j < sel.length →
      ((genLoop fa rands sel i0).1.getD j default).1 = tamperName (i0 + j) ∧
      tamper_image fa (sel.getD j default).2 (rands (i0 + j)) =
        .ok (((genLoop fa rands sel i0).1.getD j default).2) := by
  intro sel
  induction sel with
  | nil =>
    intro i0 _
    exact ⟨rfl, fun j hj => absurd hj (by simp)⟩
  | cons e rest ih =>
    intro i0 hok
    cases hres : tamper_image fa e.2 (rands i0) with
    | error err =>
      have hg : genLoop fa rands (e :: rest) i0 = ([], .error err) := by rw [genLoop, hres]
      rw [hg] at hok
      exact absurd hok (by simp)
    | ok t =>
      have hg : genLoop fa rands (e :: rest) i0 =
          ((tamperName i0, t) :: (genLoop fa rands rest (i0 + 1)).1,
           (genLoop fa rands rest (i0 + 1)).2) := by rw [genLoop, hres]
      rw [hg] at hok
      obtain ⟨hlen, hchar⟩ := ih (i0 + 1) hok
      rw [hg]
      refine ⟨by simp [hlen], ?_⟩
      intro j hj
      cases j with
      | zero =>
        refine ⟨?_, ?_⟩
        · show (tamperName i0, t).1 = tamperName (i0 + 0)
          simp
        · show tamper_image fa e.2 (rands (i0 + 0)) = .ok (tamperName i0, t).2
          simpa using hres
      | succ j =>
        have hj' : j < rest.length := by simpa using hj
        obtain ⟨hname, hprov⟩ := hchar j hj'
        refine ⟨?_, ?_⟩
        · show ((genLoop fa rands rest (i0 + 1)).1.getD j default).1 = _
          rw [hname]
          congr 1
          omega
        · show tamper_image fa (rest.getD j default).2 (rands (i0 + (j + 1))) =
            .ok (((genLoop fa rands rest (i0 + 1)).1.getD j default).2)
          have he : i0 + (j + 1) = i0 + 1 + j := by omega
          rw [he, hprov]

/-- The driver on an existing source directory, with the inner `random.sample`
call (whose size argument `min n M` never exceeds the population) resolved. -/
theorem generate_some_eq (pool : List (String × Img)) (n : Nat) (fa : Bool) (r : GenRand) :
    generate_tampered_images (some pool) n fa r =
      ((genLoop fa r.imgRand (sampleGo pool (min n pool.length) r.sampleDraws) 0).1,
       match (genLoop fa r.imgRand (sampleGo pool (min n pool.length) r.sampleDraws) 0).2 with
       | .ok _ => .ok (sampleGo pool (min n pool.length) r.sampleDraws).length
       | .error e => .error e) := by
  have hmin : min n pool.length ≤ pool.length := Nat.min_le_right n pool.length
  rw [generate_tampered_images]
  rw [show sample pool (min n pool.length) r.sampleDraws =
    .ok (sampleGo pool (min n pool.length) r.sampleDraws) from by rw [sample, if_pos hmin]]
  rcases hgl : genLoop fa r.imgRand (sampleGo pool (min n pool.length) r.sampleDraws) 0 with ⟨files, res⟩
  cases res with
  | ok u =>
    cases u
    simp only [hgl]
  | error e =>
    simp only [hgl]

theorem genLoop_err {fa : Bool} {rands : Nat → ImgRand} :
    ∀ (sel : List (String × Img)) (i0 : Nat),
    (∀ e ∈ sel, (∀ rr : ImgRand, ∃ out, tamper_image fa e.2 rr = .ok out) ∨
                (∀ rr : ImgRand, tamper_image fa e.2 rr = .error .valueError)) →
    (∃ e ∈ sel, ∀ rr : ImgRand, tamper_image fa e.2 rr = .error .valueError) →
    (genLoop fa rands sel i0).2 = .error .valueError := by
  intro sel
  induction sel with
  | nil =>
    intro i0 _ hex
    obtain ⟨e, he, _⟩ := hex
    exact absurd he (by simp)
  | cons e rest ih =>
    intro i0 hall hex
    rcases hall e (List.mem_cons_self e rest) with hok | herr
    · obtain ⟨out, hout⟩ := hok (rands i0)
      have hg : genLoop fa rands (e :: rest) i0 =
          ((tamperName i0, out) :: (genLoop fa rands rest (i0 + 1)).1,
           (genLoop fa rands rest (i0 + 1)).2) := by rw [genLoop, hout]
      rw [hg]
      apply ih (i0 + 1) (fun x hx => hall x (List.mem_cons_of_mem e hx))
      obtain ⟨x, hx, herrx⟩ := hex
      rcases List.mem_cons.mp hx with rfl | hmem
      · exact absurd (hout.symm.trans (herrx (rands i0))) (by simp)
      · exact ⟨x, hmem, herrx⟩
    · have hg : genLoop fa rands (e :: rest) i0 = ([], .error .valueError) := by
        rw [genLoop, herr (rands i0)]
      rw [hg]

/-! ### The output directory: overwrite semantics -/

theorem find?_map_overwrite (dir : List (String × Img)) (name nm : String) (c : Img)
    (h : nm ≠ name) :
    (dir.map (fun e => if e.1 = name then (name, c) else e)).find? (fun e => e.1 == nm) =
      dir.find? (fun e => e.1 == nm) := by
  induction dir with
  | nil => rfl
  | cons e t ih =>
    rw [List.map_cons]
    by_cases he : e.1 = name
    · rw [if_pos he]
      rw [List.find?_cons_of_neg _ (by simpa using Ne.symm h),
        List.find?_cons_of_neg _ (by simp [he, Ne.symm h]), ih]
    · rw [if_neg he]
      by_cases he2 : e.1 = nm
      · rw [List.find?_cons_of_pos _ (by simpa using he2),
          List.find?_cons_of_pos _ (by simpa using he2)]
      · rw [List.find?_cons_of_neg _ (by simpa using he2),
          List.find?_cons_of_neg _ (by simpa using he2), ih]

theorem lookupDir_writeFile_ne (dir : List (String × Img)) (name nm : String) (c : Img)
    (h : nm ≠ name) : lookupDir (writeFile dir name c) nm = lookupDir dir nm := by
  rw [writeFile]
  split
  · rw [lookupDir, find?_map_overwrite dir name nm c h]
    rfl
  · rw [lookupDir, List.find?_append]
    have h2 : ([(name, c)] : List (String × Img)).find? (fun e => e.1 == nm) = none := by
      rw [List.find?_cons_of_neg _ (by simpa using Ne.symm h)]
      rfl
    rw [h2, Option.or_none]
    rfl

theorem mapfst_writeFile_mem (dir : List (String × Img)) (name : String) (c : Img)
    (h : name ∈ dir.map Prod.fst) :
    (writeFile dir name c).map Prod.fst = dir.map Prod.fst := by
  have hany : dir.any (fun e => e.1 == name) = true := by
    obtain ⟨e, he, heq⟩ := List.mem_map.mp h
    exact List.any_eq_true.mpr ⟨e, he, by simp [heq]⟩
  rw [writeFile, if_pos hany, List.map_map]
  apply List.map_congr_left
  intro e he
  by_cases h1 : e.1 = name
  · simp [Function.comp, h1]
  · simp [Function.comp, h1]

theorem lookupDir_writeAll_not_mem :
    ∀ (files dir : List (String × Img)) (nm : String), nm ∉ files.map Prod.fst →
      lookupDir (writeAll dir files) nm = lookupDir dir nm := by
  intro files
  induction files with
  | nil => intro dir nm _; rfl
  | cons f t ih =>
    intro dir nm h
    have h1 : nm ≠ f.1 := fun he => h (by simp [he])
    have h2 : nm ∉ t.map Prod.fst := fun he => h (by simp [he])
    show lookupDir (writeAll (writeFile dir f.1 f.2) t) nm = _
    rw [ih _ _ h2, lookupDir_writeFile_ne _ _ _ _ h1]

theorem mapfst_writeAll_subset :
    ∀ (files dir : List (String × Img)),
      (∀ nm ∈ files.map Prod.fst, nm ∈ dir.map Prod.fst) →
      (writeAll dir files).map Prod.fst = dir.map Prod.fst := by
  intro files
  induction files with
  | nil => intro dir _; rfl
  | cons f t ih =>
    intro dir h
    have h1 : f.1 ∈ dir.map Prod.fst := h f.1 (by simp)
    have hfst : (writeFile dir f.1 f.2).map Prod.fst = dir.map Prod.fst :=
      mapfst_writeFile_mem dir f.1 f.2 h1
    show (writeAll (writeFile dir f.1 f.2) t).map Prod.fst = _
    rw [ih (writeFile dir f.1 f.2) (fun nm hnm => by
      rw [hfst]
      exact h nm (by simp [hnm])), hfst]

/-! ## Claims -/

/-- Claim C5: if the source directory does not exist or is unreadable, the
driver fails with the `MissingSourceDirectory` condition (the uncaught
`FileNotFoundError` of `os.listdir`) and aborts the batch before any writes:
the failed invocation creates zero output files. -/
theorem generate_missing_source_dir_aborts (n : Nat) (fa : Bool) (r : GenRand) :
    generate_tampered_images none n fa r = ([], .error .fileNotFound) := rfl

/-- Claim C6: when the source directory exists but contains no images, the
driver writes zero files and reports the equivalent "no images available"
result: it completes normally with summary count 0 (line 100 prints
`Generated 0 tampered images`). -/
theorem generate_empty_source_dir_zero_files (n : Nat) (fa : Bool) (r : GenRand) :
    generate_tampered_images (some []) n fa r = ([], .ok 0) := by
  rw [generate_some_eq]
  simp [sampleGo, genLoop, Nat.min_zero]

/-- Claim C10: the 0.5 decision threshold is strict on the tampered side:
`pred = 1` exactly when the sigmoid probability is strictly greater than
0.5, so a probability of exactly 0.5 is labelled 0 (Real); the interactive
UI (app.py) computes the identical label. -/
theorem predict_threshold_strict :
    (∀ prob : Rat, (predict prob).1 = 1 ↔ (0.5 : Rat) < prob) ∧
    (predict (0.5 : Rat)).1 = 0 ∧
    (∀ prob : Rat, app_pred prob = (predict prob).1) := by
  refine ⟨fun prob => ?_, ?_, fun prob => rfl⟩
  · rw [predict]
    by_cases h : (0.5 : Rat) < prob
    · simp [h]
    · simp [h]
  · norm_num [predict]

/-- Claim C3: operator selection is a uniform random choice over the fixed
six-operator set, independently per image with replacement across the batch:
the method list has exactly six entries, each operator appears in it exactly
once (so the uniform index `methodDraw % 6` selects each with equal
probability and none is excluded or weighted), and each `tamper_image` call
dispatches on its own image's method draw. -/
theorem operator_selection_uniform_over_six :
    tamper_methods.length = 6 ∧
    (∀ m : TamperMethod, tamper_methods.count m = 1) ∧
    (∀ (fa : Bool) (img : Img) (r : ImgRand), tamper_image fa img r =
      applyMethod (tamper_methods.getD (r.methodDraw % 6) .blackBox) fa img r.draws) := by
  refine ⟨rfl, fun m => ?_, fun fa img r => rfl⟩
  cases m <;> decide

/-- Claim C4 counterexample: the whiteout operator, selected by the
per-image method draw and applied to an all-white source image, is a
pixel-level no-op — the produced tampered image equals its source at every
pixel, refuting "the perturbation is never a no-op". -/
theorem operator_noop_whiteout_on_white :
    ∃ out, tamper_image true whiteImg whiteoutRand = .ok out ∧ ¬ imgDiffers whiteImg out := by
  refine ⟨drawRect whiteImg 100 100 180 120 (255, 255, 255), rfl, ?_⟩
  rintro ⟨x, y, hx, hy, hne⟩
  apply hne
  show (255, 255, 255) = (drawRect whiteImg 100 100 180 120 (255, 255, 255)).pix x y
  simp only [drawRect]
  split
  · rfl
  · rfl

/-- Claim C4 (amended): a produced tampered image can coincide with its
source when the drawn content equals the underlying pixels (see the whiteout
counterexample); whenever the drawn fill differs from the source in the
affected region the perturbation does change pixel content — in particular,
black-box occlusion applied to any sufficiently large image with no black
pixels changes at least one pixel. -/
theorem black_box_changes_pixel_on_nonblack {img : Img} (ds : Nat → Nat)
    (h1 : 100 ≤ img.w) (h2 : 100 ≤ img.h)
    (hb : ∀ x y, x < img.w → y < img.h → img.pix x y ≠ (0, 0, 0)) :
    ∃ out, apply_black_box img ds = .ok out ∧ imgDiffers img out := by
  obtain ⟨x1, y1, dx, dy, heq, hx1a, hx1b, hy1a, hy1b, hdxa, hdxb, hdya, hdyb⟩ :=
    @apply_black_box_eq img ds (by omega) (by omega)
  have hpix : (drawRect img x1 y1 (x1 + dx) (y1 + dy) (0, 0, 0)).pix x1.toNat y1.toNat
      = (0, 0, 0) := by
    simp only [drawRect]
    rw [if_pos]
    omega
  refine ⟨_, heq, x1.toNat, y1.toNat, by omega, by omega, ?_⟩
  rw [hpix]
  exact hb x1.toNat y1.toNat (by omega) (by omega)

/-- Witness for the amended C4 at a concrete input: black-box occlusion on a
300 × 200 all-white image changes at least one pixel. -/
theorem black_box_changes_pixel_on_nonblack_witness :
    (100 ≤ whiteImg.w ∧ 100 ≤ whiteImg.h ∧
      (∀ x y, x < whiteImg.w → y < whiteImg.h → whiteImg.pix x y ≠ (0, 0, 0))) ∧
    ∃ out, apply_black_box whiteImg (fun _ => 0) = .ok out ∧ imgDiffers whiteImg out :=
  ⟨⟨by decide, by decide, fun x y _ _ => by simp [whiteImg]⟩,
   black_box_changes_pixel_on_nonblack (fun _ => 0) (by decide) (by decide)
     (fun x y _ _ => by simp [whiteImg])⟩

theorem getD_eq_of_lt {α : Type} (l : List α) (d : α) (j : Nat) (h : j < l.length) :
    l.getD j d = l[j] := by
  rw [List.getD_eq_getElem?_getD, List.getElem?_eq_getElem h]
  rfl

theorem getD_mem_of_lt {α : Type} (l : List α) (d : α) (j : Nat) (h : j < l.length) :
    l.getD j d ∈ l := by
  rw [getD_eq_of_lt l d j h]
  exact List.getElem_mem h

/-- Claim C9: every operator has an implicit minimum-image-size
precondition: a width below 100 empties the black-box operator's first
parameter range, and a width below 250 or height below 150 empties a range
of the fake-text and localized-blur operators, making the corresponding
`random.randint` call raise `ValueError`; the driver does not catch it, so a
single such small source image in the sampled batch aborts the whole
invocation with an error instead of the printed summary. -/
theorem small_image_value_error_aborts_batch :
    (∀ (img : Img) (ds : Nat → Nat), img.w < 100 →
      apply_black_box img ds = .error .valueError) ∧
    (∀ (fa : Bool) (img : Img) (ds : Nat → Nat), img.w < 250 ∨ img.h < 150 →
      apply_fake_text fa img ds = .error .valueError) ∧
    (∀ (img : Img) (ds : Nat → Nat), img.w < 250 ∨ img.h < 150 →
      apply_blur_patch img ds = .error .valueError) ∧
    (∀ (name : String) (img : Img) (rest : List (String × Img)) (n : Nat) (fa : Bool)
      (r : GenRand), img.w < 100 → (∀ e ∈ rest, 300 ≤ e.2.w ∧ 200 ≤ e.2.h) →
      ((name, img) :: rest).length ≤ n →
      (generate_tampered_images (some ((name, img) :: rest)) n fa r).2 = .error .valueError) := by
  refine ⟨fun img ds h => apply_black_box_err h ds,
    fun fa img ds h => apply_fake_text_err fa h ds,
    fun img ds h => apply_blur_patch_err h ds,
    fun name img rest n fa r hs hrest hn => ?_⟩
  rw [generate_some_eq]
  have hmin : min n ((name, img) :: rest).length = ((name, img) :: rest).length :=
    Nat.min_eq_right hn
  rw [hmin]
  have hperm := sampleGo_perm ((name, img) :: rest) r.sampleDraws
  have herr : (genLoop fa r.imgRand
      (sampleGo ((name, img) :: rest) ((name, img) :: rest).length r.sampleDraws) 0).2 =
      .error .valueError := by
    apply genLoop_err
    · intro e he
      rcases List.mem_cons.mp (hperm.subset he) with heq | hmem
      · right
        intro rr
        rw [heq]
        exact tamper_image_small hs fa rr
      · left
        intro rr
        obtain ⟨out, hout, _, _⟩ := tamper_image_ok (hrest e hmem).1 (hrest e hmem).2 fa rr
        exact ⟨out, hout⟩
    · refine ⟨(name, img), ?_, fun rr => tamper_image_small hs fa rr⟩
      exact hperm.mem_iff.mpr (List.mem_cons_self _ _)
  rw [herr]

/-- Witness for C9 at concrete inputs: a 10 × 10 source image makes the
black-box, fake-text and blur operators raise, and a driver invocation over
a pool holding only that image aborts with `ValueError` and no summary. -/
theorem small_image_value_error_aborts_batch_witness :
    tinyImg.w < 100 ∧
    apply_black_box tinyImg (fun _ => 0) = .error .valueError ∧
    apply_fake_text true tinyImg (fun _ => 0) = .error .valueError ∧
    apply_blur_patch tinyImg (fun _ => 0) = .error .valueError ∧
    (generate_tampered_images (some [(("inv"), tinyImg)]) 1 true zeroGenRand).2 =
      .error .valueError :=
  ⟨by decide,
   small_image_value_error_aborts_batch.1 tinyImg (fun _ => 0) (by decide),
   small_image_value_error_aborts_batch.2.1 true tinyImg (fun _ => 0) (Or.inl (by decide)),
   small_image_value_error_aborts_batch.2.2.1 tinyImg (fun _ => 0) (Or.inl (by decide)),
   small_image_value_error_aborts_batch.2.2.2 ("inv") tinyImg [] 1 true zeroGenRand (by decide)
     (fun e he => absurd he (by simp)) (by decide)⟩

/-- Claim C2: source sampling is without replacement — with distinct source
filenames (as a directory listing always has), the selected batch repeats no
filename and draws from the pool without replacement (it is a
sub-permutation of the pool); and on a completed batch every output image is
produced by applying exactly one operator of the six-method list to exactly
one sampled source image, the one at its own batch position. -/
theorem generate_sampling_without_replacement (pool : List (String × Img)) (n : Nat)
    (fa : Bool) (r : GenRand) (hnd : (pool.map Prod.fst).Nodup) :
    ((sampleGo pool (min n pool.length) r.sampleDraws).map Prod.fst).Nodup ∧
    List.Subperm (sampleGo pool (min n pool.length) r.sampleDraws) pool ∧
    ((generate_tampered_images (some pool) n fa r).2 = .ok (min n pool.length) →
      ∀ j, j < min n pool.length →
        ∃ m ∈ tamper_methods,
          applyMethod m fa
            ((sampleGo pool (min n pool.length) r.sampleDraws).getD j default).2
            (r.imgRand j).draws =
          .ok (((generate_tampered_images (some pool) n fa r).1.getD j default).2)) := by
  have hsub := sampleGo_subperm (min n pool.length) pool r.sampleDraws
    (Nat.min_le_right n pool.length)
  refine ⟨subperm_nodup (subperm_map Prod.fst hsub) hnd, hsub, ?_⟩
  intro hok j hj
  rw [generate_some_eq] at hok ⊢
  rcases hgl : (genLoop fa r.imgRand (sampleGo pool (min n pool.length) r.sampleDraws) 0).2
    with e | u
  · rw [hgl] at hok
    exact absurd hok (by simp)
  · cases u
    obtain ⟨hflen, hchar⟩ :=
      genLoop_ok_elim (sampleGo pool (min n pool.length) r.sampleDraws) 0 hgl
    have hlen := sampleGo_length (min n pool.length) pool r.sampleDraws
    have hj' : j < (sampleGo pool (min n pool.length) r.sampleDraws).length := by
      rw [hlen]
      exact hj
    obtain ⟨hname, hprov⟩ := hchar j hj'
    have h0j : (0 : Nat) + j = j := by omega
    rw [h0j] at hprov
    refine ⟨tamper_methods.getD ((r.imgRand j).methodDraw % tamper_methods.length) .blackBox,
      ?_, ?_⟩
    · exact getD_mem_of_lt tamper_methods .blackBox _
        (Nat.mod_lt _ (by norm_num [tamper_methods]))
    · exact hprov

/-- Witness for C2 at a concrete input: a two-image pool with distinct
filenames; the sampled batch repeats no filename. -/
theorem generate_sampling_without_replacement_witness :
    (([(("a"), whiteImg), (("b"), whiteImg)] : List (String × Img)).map Prod.fst).Nodup ∧
    ((sampleGo ([(("a"), whiteImg), (("b"), whiteImg)] : List (String × Img))
        (min 1 ([(("a"), whiteImg), (("b"), whiteImg)] : List (String × Img)).length)
        zeroGenRand.sampleDraws).map Prod.fst).Nodup :=
  ⟨by decide,
   (generate_sampling_without_replacement [(("a"), whiteImg), (("b"), whiteImg)] 1 true
     zeroGenRand (by decide)).1⟩

/-- Claim C1 counterexample: a pool of one decodable 10 × 10 image with
`N = 1` has `min(N, M) = 1`, but the invocation writes zero files — the
operator's empty parameter range raises `ValueError` and aborts the batch —
refuting "writes exactly min(N, M) output files" for arbitrary decodable
pools. -/
theorem generate_count_fails_on_small_image :
    ¬ ((generate_tampered_images (some [(("inv"), tinyImg)]) 1 true zeroGenRand).1.length =
        min 1 ([(("inv"), tinyImg)] : List (String × Img)).length) ∧
    (generate_tampered_images (some [(("inv"), tinyImg)]) 1 true zeroGenRand).2 =
      .error .valueError :=
  ⟨by decide, rfl⟩

/-- Claim C1 (amended): for every target count `N` and pool of `M` decodable
source images *each at least 300 × 200* (so that every operator's parameter
ranges are nonempty), one driver invocation completes with summary
`min(N, M)`, writes exactly `min(N, M)` output files, and each written file
is a raster image whose pixel dimensions equal those of the sampled source
image it was produced from. -/
theorem generate_count_and_dims_of_large_pool (pool : List (String × Img)) (n : Nat)
    (fa : Bool) (r : GenRand) (hg : ∀ e ∈ pool, 300 ≤ e.2.w ∧ 200 ≤ e.2.h) :
    (generate_tampered_images (some pool) n fa r).2 = .ok (min n pool.length) ∧
    (generate_tampered_images (some pool) n fa r).1.length = min n pool.length ∧
    ∀ j, j < min n pool.length →
      ((generate_tampered_images (some pool) n fa r).1.getD j default).2.w =
        ((sampleGo pool (min n pool.length) r.sampleDraws).getD j default).2.w ∧
      ((generate_tampered_images (some pool) n fa r).1.getD j default).2.h =
        ((sampleGo pool (min n pool.length) r.sampleDraws).getD j default).2.h := by
  have hsub := sampleGo_subperm (min n pool.length) pool r.sampleDraws
    (Nat.min_le_right n pool.length)
  have hlen := sampleGo_length (min n pool.length) pool r.sampleDraws
  have hgood : ∀ e ∈ sampleGo pool (min n pool.length) r.sampleDraws,
      300 ≤ e.2.w ∧ 200 ≤ e.2.h := fun e he => hg e (hsub.subset he)
  have hok : (genLoop fa r.imgRand (sampleGo pool (min n pool.length) r.sampleDraws) 0).2 =
      .ok () := by
    apply genLoop_ok
    intro e he rr
    obtain ⟨out, hout, _, _⟩ := tamper_image_ok (hgood e he).1 (hgood e he).2 fa rr
    exact ⟨out, hout⟩
  obtain ⟨hflen, hchar⟩ :=
    genLoop_ok_elim (sampleGo pool (min n pool.length) r.sampleDraws) 0 hok
  rw [generate_some_eq]
  refine ⟨?_, ?_, ?_⟩
  · simp only [hok]
    rw [hlen]
  · show (genLoop fa r.imgRand (sampleGo pool (min n pool.length) r.sampleDraws) 0).1.length = _
    rw [hflen, hlen]
  · intro j hj
    have hj' : j < (sampleGo pool (min n pool.length) r.sampleDraws).length := by
      rw [hlen]
      exact hj
    obtain ⟨hname, hprov⟩ := hchar j hj'
    have hmem := getD_mem_of_lt (sampleGo pool (min n pool.length) r.sampleDraws) default j hj'
    obtain ⟨out, hout, hw, hh⟩ :=
      tamper_image_ok (hgood _ hmem).1 (hgood _ hmem).2 fa (r.imgRand (0 + j))
    rw [hout] at hprov
    have heqo : out =
        ((genLoop fa r.imgRand (sampleGo pool (min n pool.length) r.sampleDraws) 0).1.getD j
          default).2 := by
      injection hprov
    constructor
    · show ((genLoop fa r.imgRand (sampleGo pool (min n pool.length) r.sampleDraws) 0).1.getD j
          default).2.w = _
      rw [← heqo, hw]
    · show ((genLoop fa r.imgRand (sampleGo pool (min n pool.length) r.sampleDraws) 0).1.getD j
          default).2.h = _
      rw [← heqo, hh]

/-- Witness for the amended C1 at a concrete input: a one-image 300 × 200
pool with `N = 1` yields summary 1 and exactly one written file. -/
theorem generate_count_and_dims_of_large_pool_witness :
    (∀ e ∈ ([(("a"), whiteImg)] : List (String × Img)), 300 ≤ e.2.w ∧ 200 ≤ e.2.h) ∧
    (generate_tampered_images (some [(("a"), whiteImg)]) 1 true zeroGenRand).2 =
      .ok (min 1 ([(("a"), whiteImg)] : List (String × Img)).length) ∧
    (generate_tampered_images (some [(("a"), whiteImg)]) 1 true zeroGenRand).1.length =
      min 1 ([(("a"), whiteImg)] : List (String × Img)).length :=
  ⟨by decide,
   (generate_count_and_dims_of_large_pool [(("a"), whiteImg)] 1 true zeroGenRand (by decide)).1,
   (generate_count_and_dims_of_large_pool [(("a"), whiteImg)] 1 true zeroGenRand
     (by decide)).2.1⟩

/-- Claim C7 counterexample: with a source pool holding one decodable
10 × 10 image and `N = 1`, `min(N, M) = 1` but a (re-)run writes no file at
all — the batch aborts on the empty parameter range — so re-running does not
always yield files `tampered_0.jpg .. tampered_{min(N,M)-1}.jpg`. -/
theorem generate_rerun_fails_on_small_image :
    (generate_tampered_images (some [(("inv"), tinyImg)]) 1 true zeroGenRand).1.map Prod.fst
      = [] ∧
    ¬ ((generate_tampered_images (some [(("inv"), tinyImg)]) 1 true zeroGenRand).1.map Prod.fst
        = (List.range (min 1 ([(("inv"), tinyImg)] : List (String × Img)).length)).map
            tamperName) :=
  ⟨rfl, by decide⟩

/-- Claim C7 (amended): for every pool whose images are all at least
300 × 200, every invocation (hence every re-run, whatever draws it makes)
writes exactly the files named `tampered_0.jpg .. tampered_{min(N,M)-1}.jpg`
in order; applied to any prior output directory these writes overwrite
entries of the same name rather than appending (a directory already holding
those names keeps exactly its old name set), and any entry not named by the
batch is left unchanged — the driver never reads or deletes existing
output-directory contents. -/
theorem generate_rerun_overwrite_semantics (pool : List (String × Img)) (n : Nat)
    (fa : Bool) (r : GenRand) (hg : ∀ e ∈ pool, 300 ≤ e.2.w ∧ 200 ≤ e.2.h) :
    (generate_tampered_images (some pool) n fa r).2 = .ok (min n pool.length) ∧
    (generate_tampered_images (some pool) n fa r).1.map Prod.fst =
      (List.range (min n pool.length)).map tamperName ∧
    (∀ (dir : List (String × Img)) (nm : String),
      nm ∉ (generate_tampered_images (some pool) n fa r).1.map Prod.fst →
      lookupDir (writeAll dir (generate_tampered_images (some pool) n fa r).1) nm =
        lookupDir dir nm) ∧
    (∀ dir : List (String × Img),
      (∀ nm ∈ (generate_tampered_images (some pool) n fa r).1.map Prod.fst,
        nm ∈ dir.map Prod.fst) →
      (writeAll dir (generate_tampered_images (some pool) n fa r).1).map Prod.fst =
        dir.map Prod.fst) := by
  have hsub := sampleGo_subperm (min n pool.length) pool r.sampleDraws
    (Nat.min_le_right n pool.length)
  have hlen := sampleGo_length (min n pool.length) pool r.sampleDraws
  have hgood : ∀ e ∈ sampleGo pool (min n pool.length) r.sampleDraws,
      300 ≤ e.2.w ∧ 200 ≤ e.2.h := fun e he => hg e (hsub.subset he)
  have hok : (genLoop fa r.imgRand (sampleGo pool (min n pool.length) r.sampleDraws) 0).2 =
      .ok () := by
    apply genLoop_ok
    intro e he rr
    obtain ⟨out, hout, _, _⟩ := tamper_image_ok (hgood e he).1 (hgood e he).2 fa rr
    exact ⟨out, hout⟩
  obtain ⟨hflen, hchar⟩ :=
    genLoop_ok_elim (sampleGo pool (min n pool.length) r.sampleDraws) 0 hok
  rw [generate_some_eq]
  refine ⟨?_, ?_, ?_, ?_⟩
  · simp only [hok]
    rw [hlen]
  · show (genLoop fa r.imgRand (sampleGo pool (min n pool.length) r.sampleDraws) 0).1.map
      Prod.fst = _
    apply List.ext_getElem
    · simp [hflen, hlen]
    · intro i h1 h2
      have hi : i < (genLoop fa r.imgRand
          (sampleGo pool (min n pool.length) r.sampleDraws) 0).1.length := by
        simpa using h1
      have hisel : i < (sampleGo pool (min n pool.length) r.sampleDraws).length := by
        rw [← hflen]
        exact hi
      obtain ⟨hname, _⟩ := hchar i hisel
      rw [List.getElem_map, List.getElem_map, List.getElem_range,
        ← getD_eq_of_lt _ default i hi, hname, Nat.zero_add]
  · intro dir nm hnm
    exact lookupDir_writeAll_not_mem _ dir nm hnm
  · intro dir hsubset
    exact mapfst_writeAll_subset _ dir hsubset

/-- Witness for the amended C7 at a concrete input: the one-image 300 × 200
pool writes exactly the file list `[tampered_0.jpg]`. -/
theorem generate_rerun_overwrite_semantics_witness :
    (∀ e ∈ ([(("a"), whiteImg)] : List (String × Img)), 300 ≤ e.2.w ∧ 200 ≤ e.2.h) ∧
    (generate_tampered_images (some [(("a"), whiteImg)]) 1 true zeroGenRand).1.map Prod.fst =
      (List.range (min 1 ([(("a"), whiteImg)] : List (String × Img)).length)).map tamperName :=
  ⟨by decide,
   (generate_rerun_overwrite_semantics [(("a"), whiteImg)] 1 true zeroGenRand (by decide)).2.1⟩

/-! ### Font availability does not affect control flow -/

theorem apply_fake_text_font_indep (img : Img) (ds : Nat → Nat) :
    (∃ o1 o2, apply_fake_text false img ds = .ok o1 ∧ apply_fake_text true img ds = .ok o2) ∨
    (∃ e, apply_fake_text false img ds = .error e ∧ apply_fake_text true img ds = .error e) := by
  rcases le_or_lt 100 ((img.w : Int) - 150) with hw | hw
  · rcases le_or_lt 100 ((img.h : Int) - 50) with hh | hh
    · obtain ⟨x, y, h1, _⟩ := apply_fake_text_eq false ds hw hh
      obtain ⟨x', y', h2, _⟩ := apply_fake_text_eq true ds hw hh
      exact Or.inl ⟨_, _, h1, h2⟩
    · obtain ⟨x, hx, _, _⟩ := randint_ok hw (ds 0)
      refine Or.inr ⟨.valueError, ?_, ?_⟩ <;>
        · simp only [apply_fake_text, hx, randint_err hh]
          rfl
  · refine Or.inr ⟨.valueError, ?_, ?_⟩ <;>
      · simp only [apply_fake_text, randint_err hw]
        rfl

theorem tamper_image_font_indep (img : Img) (r : ImgRand) :
    (∃ o1 o2, tamper_image false img r = .ok o1 ∧ tamper_image true img r = .ok o2) ∨
    (∃ e, tamper_image false img r = .error e ∧ tamper_image true img r = .error e) := by
  have hm : r.methodDraw % tamper_methods.length = r.methodDraw % 6 := rfl
  simp only [tamper_image]
  rw [hm]
  rcases (show r.methodDraw % 6 = 0 ∨ r.methodDraw % 6 = 1 ∨ r.methodDraw % 6 = 2 ∨
      r.methodDraw % 6 = 3 ∨ r.methodDraw % 6 = 4 ∨ r.methodDraw % 6 = 5 by omega) with
    h | h | h | h | h | h <;> rw [h]
  · rcases hres : apply_black_box img r.draws with e | o
    · exact Or.inr ⟨e, hres, hres⟩
    · exact Or.inl ⟨o, o, hres, hres⟩
  · exact apply_fake_text_font_indep img r.draws
  · rcases hres : apply_blur_patch img r.draws with e | o
    · exact Or.inr ⟨e, hres, hres⟩
    · exact Or.inl ⟨o, o, hres, hres⟩
  · rcases hres : apply_whiteout img r.draws with e | o
    · exact Or.inr ⟨e, hres, hres⟩
    · exact Or.inl ⟨o, o, hres, hres⟩
  · rcases hres : overlay_random_shape img r.draws with e | o
    · exact Or.inr ⟨e, hres, hres⟩
    · exact Or.inl ⟨o, o, hres, hres⟩
  · rcases hres : apply_fake_signature img r.draws with e | o
    · exact Or.inr ⟨e, hres, hres⟩
    · exact Or.inl ⟨o, o, hres, hres⟩

theorem genLoop_snd_font_indep (rands : Nat → ImgRand) :
    ∀ (sel : List (String × Img)) (i0 : Nat),
      (genLoop false rands sel i0).2 = (genLoop true rands sel i0).2 := by
  intro sel
  induction sel with
  | nil => intro i0; rfl
  | cons e rest ih =>
    intro i0
    rcases tamper_image_font_indep e.2 (rands i0) with ⟨o1, o2, h1, h2⟩ | ⟨er, h1, h2⟩
    · have g1 : genLoop false rands (e :: rest) i0 =
          ((tamperName i0, o1) :: (genLoop false rands rest (i0 + 1)).1,
           (genLoop false rands rest (i0 + 1)).2) := by rw [genLoop, h1]
      have g2 : genLoop true rands (e :: rest) i0 =
          ((tamperName i0, o2) :: (genLoop true rands rest (i0 + 1)).1,
           (genLoop true rands rest (i0 + 1)).2) := by rw [genLoop, h2]
      rw [g1, g2]
      exact ih (i0 + 1)
    · have g1 : genLoop false rands (e :: rest) i0 = ([], .error er) := by rw [genLoop, h1]
      have g2 : genLoop true rands (e :: rest) i0 = ([], .error er) := by rw [genLoop, h2]
      rw [g1, g2]

theorem generate_snd_font_indep (realDir : Option (List (String × Img))) (n : Nat)
    (r : GenRand) :
    (generate_tampered_images realDir n false r).2 =
      (generate_tampered_images realDir n true r).2 := by
  cases realDir with
  | none => rfl
  | some pool =>
    rw [generate_some_eq, generate_some_eq]
    simp only [genLoop_snd_font_indep r.imgRand]

/-- Claim C8: font unavailability never raises an error and never aborts
generation: the fake-text operator fails for an error exactly when it would
fail with the preferred font available (its failures come from the position
draws, not the font); the driver's outcome — summary count or error — is
identical with and without the preferred font; and on any image admitting
the position ranges, the unavailable-font run completes normally, rendering
the text with the default fallback font. -/
theorem fake_text_font_fallback :
    (∀ (img : Img) (ds : Nat → Nat) (e : TamperErr),
      apply_fake_text false img ds = .error e ↔ apply_fake_text true img ds = .error e) ∧
    (∀ (realDir : Option (List (String × Img))) (n : Nat) (r : GenRand),
      (generate_tampered_images realDir n false r).2 =
        (generate_tampered_images realDir n true r).2) ∧
    (∀ (img : Img) (ds : Nat → Nat), 250 ≤ img.w → 150 ≤ img.h →
      ∃ x y, apply_fake_text false img ds =
        .ok (drawText img x y ("FAKE $999") (255, 0, 0) Font.default)) := by
  refine ⟨fun img ds e => ?_, fun realDir n r => generate_snd_font_indep realDir n r,
    fun img ds hw hh => ?_⟩
  · rcases apply_fake_text_font_indep img ds with ⟨o1, o2, h1, h2⟩ | ⟨er, h1, h2⟩
    · constructor <;> intro h
      · rw [h1] at h
        exact absurd h (by simp)
      · rw [h2] at h
        exact absurd h (by simp)
    · rw [h1, h2]
  · obtain ⟨x, y, heq, _⟩ := @apply_fake_text_eq img false ds (by omega) (by omega)
    exact ⟨x, y, heq⟩

/-- Witness for C8 at a concrete input: on the 300 × 200 white image with
the preferred font unavailable, the fake-text operator completes normally
using the default font. -/
theorem fake_text_font_fallback_witness :
    (250 ≤ whiteImg.w ∧ 150 ≤ whiteImg.h) ∧
    ∃ x y, apply_fake_text false whiteImg (fun _ => 0) =
      .ok (drawText whiteImg x y ("FAKE $999") (255, 0, 0) Font.default) :=
  ⟨⟨by decide, by decide⟩,
   fake_text_font_fallback.2.2 whiteImg (fun _ => 0) (by decide) (by decide)⟩
